import Mathlib

/-
Verification of the Eurydice expression-language core (a dice-rolling
expression language: lexer, Pratt parser, continuation-passing evaluator).

The embedding below is translated from the repository sources:
  * `src/parse.ts`  — token kinds, binding-power tables, Pratt parser
    (`parseExpression`, `parseParenthesized`, `parseArray`, prefix forms,
    the infix/juxtaposition/postfix loop, top-level `parse`);
  * the evaluator with environments, closures, `let`/`if` and builtins
    (`evaluate`, `Environment`, `wrapFunction`/`wrapDeferred` currying with
    per-argument type guards, `addValues`, `equals`, `keepHighest`,
    `keepLowest`, `reroll` with `MAX_REROLLS`, `d`, `dF`, ...).

Modelling conventions:
  * JavaScript numbers are modelled as `ℚ` (all programs considered here
    stay within the rationals; `Math.pow` with a non-integral exponent is
    outside the model and `powQ` returns a junk value there).
  * The trampolined work-stack/continuation-stack execution is modelled as
    a fuel-indexed big-step evaluator; each continuation push in the source
    corresponds to one recursive-call position here.  Fuel is an artifact
    of the embedding: `Err.outOfFuel` never occurs for sufficient fuel.
  * `Math.random()` is modelled by an explicit oracle `ℕ → ℚ` (intended
    range `[0, 1)`) together with a cursor `St.idx`; every call of the
    source's `Math.random()` consumes one oracle entry.
  * JavaScript environment records are mutable and shared (a `let`
    populates its record only after all bindings are evaluated); the store
    of environment records is therefore part of the state (`St.frames`),
    and environments are referenced by index.
  * Source spans on expression nodes are diagnostic metadata and are
    omitted.
  * The experimental `handle`/`perform` surface is omitted: no lexer
    snapshot in the repository produces `HANDLE`/`TILDE` tokens.
-/

namespace Eurydice

/-! ### Tokens (from `lexer.ts` / `parse.ts`) -/

/-- Token kinds of the lexer, with their payloads.  `NUMBER` carries the
numeric value (the source stores the raw text and converts with `Number`
in `parseNumber`; the conversion is a lexer-side concern here), `STRING`
carries the decoded string, `NAME` the identifier text. -/
inductive Token where
  | plus | minus | multiply | divide | modulo | power
  | lt | le | gt | ge | eq | ne
  | orT | andT | notT
  | parenL | parenR | bracketL | bracketR | comma | dot
  | atT
  | letT | letAnd | inT | ifT | thenT | elseT
  | number (value : ℚ)
  | str (value : String)
  | name (value : String)
  | eof
  deriving DecidableEq

abbrev Tokens := List Token

/-- `Lexer.peek`: the token stream is `EOF`-terminated, so an exhausted
list behaves as `EOF`. -/
def peekT : Tokens → Token
  | [] => .eof
  | t :: _ => t

/-- `Lexer.next`: consume and return the next token. -/
def nextT : Tokens → Token × Tokens
  | [] => (.eof, [])
  | t :: rest => (t, rest)

/-! ### Expressions (from `parse.ts`) -/

/-- Expression nodes (`parse.ts`); spans omitted.  The `letE` binding list
is called `variables` in the source (`variables` is reserved in Lean). -/
inductive Expression where
  | num (value : ℚ)
  | str (value : String)
  | var (value : String)
  | app (lhs rhs : Expression)
  | arr (elements : List Expression)
  | letE (bindings : List (String × Expression)) (body : Expression)
  | ifE (condition trueBranch falseBranch : Expression)
  | unit
  | defun (argument : String) (body : Expression)

/-! ### Binding-power tables (from `parse.ts`) -/

/-- `infixBindingPower`: (left, right) binding powers of binary operators. -/
def binBP : Token → Option (ℕ × ℕ)
  | .eq => some (5, 6)
  | .ne => some (5, 6)
  | .lt => some (7, 8)
  | .le => some (7, 8)
  | .gt => some (7, 8)
  | .ge => some (7, 8)
  | .orT => some (9, 10)
  | .andT => some (11, 12)
  | .plus => some (13, 14)
  | .minus => some (13, 14)
  | .multiply => some (15, 16)
  | .divide => some (15, 16)
  | .modulo => some (15, 16)
  | .power => some (17, 18)
  | _ => none

/-- `emptyBindingPower`: the synthetic binding powers of juxtaposition. -/
def emptyBP : ℕ × ℕ := (24, 23)

/-- `postfixBindingPower`: commas outside array literals. -/
def postBP : Token → Option ℕ
  | .comma => some 21
  | _ => none

/-- `infixToBuiltin`: the builtin name an infix operator desugars to. -/
def binToBuiltin : Token → Option String
  | .plus => some "+"
  | .minus => some "-"
  | .multiply => some "*"
  | .divide => some "/"
  | .modulo => some "%"
  | .power => some "**"
  | .orT => some "|"
  | .andT => some "&"
  | .lt => some "<"
  | .le => some "<="
  | .gt => some ">"
  | .ge => some ">="
  | .eq => some "="
  | .ne => some "!="
  | _ => none

/-- Tokens on which the infix loop in `parseExpression` stops. -/
def isTerminator : Token → Bool
  | .eof | .parenR | .bracketR | .inT | .thenT | .elseT | .letAnd | .dot => true
  | _ => false

/-! ### Parser (from `parse.ts`)

Each function returns the parsed node together with the unconsumed tokens.
A `none` result means the source function returned `null` (no prefix rule
matched, no tokens consumed); a thrown parse error is `Except.error` with
the source's message.  The `ℕ` argument is recursion fuel (an embedding
artifact; the source recurses on the host stack). -/

/-- `parseNumber`. -/
def parseNumber : Tokens → Option (Expression × Tokens)
  | .number v :: rest => some (Expression.num v, rest)
  | _ => none

/-- `parseString`. -/
def parseString : Tokens → Option (Expression × Tokens)
  | .str v :: rest => some (Expression.str v, rest)
  | _ => none

/-- `parseName`. -/
def parseName : Tokens → Option (Expression × Tokens)
  | .name v :: rest => some (Expression.var v, rest)
  | _ => none

mutual

/-- `parseExpression(lexer, minBP)`: parse a prefix term (trying, in source
order: number, parenthesized, array, prefix forms, name, string), then run
the infix/postfix loop. -/
def parseExpression : ℕ → ℕ → Tokens → Except String (Option Expression × Tokens)
  | 0, _, _ => .error "out of fuel"
  | fuel+1, minBP, ts => do
    let lhs? : Option (Expression × Tokens) ←
      match parseNumber ts with
      | some r => pure (some r)
      | none => do
        match ← parseParen fuel ts with
        | some r => pure (some r)
        | none => do
          match ← parseArray fuel ts with
          | some r => pure (some r)
          | none => do
            match ← parsePre fuel ts with
            | some r => pure (some r)
            | none =>
              match parseName ts with
              | some r => pure (some r)
              | none => pure (parseString ts)
    match lhs? with
    | none => .ok (none, ts)
    | some (lhs, ts₁) => do
      let (e, ts₂) ← parseLoop fuel minBP lhs ts₁
      .ok (some e, ts₂)

/-- The `for(;;)` infix/postfix loop of `parseExpression`: stop on a
terminator token; a comma is a postfix no-op; a binary operator desugars to
`Apply(Apply(Variable(op), lhs), rhs)`; any other token triggers
juxtaposition, `Apply(lhs, rhs)`. -/
def parseLoop : ℕ → ℕ → Expression → Tokens → Except String (Expression × Tokens)
  | 0, _, _, _ => .error "out of fuel"
  | fuel+1, minBP, lhs, ts =>
    let op := peekT ts
    if isTerminator op then .ok (lhs, ts)
    else
      match postBP op with
      | some lbp =>
        if lbp < minBP then .ok (lhs, ts)
        else parseLoop fuel minBP lhs (nextT ts).2
      | none =>
        match binBP op with
        | none =>
          -- two expressions in a row: juxtaposition-as-application
          if emptyBP.1 < minBP then .ok (lhs, ts)
          else do
            let (rhs?, ts₁) ← parseExpression fuel emptyBP.2 ts
            match rhs? with
            | none => .error "Expected expression"
            | some rhs => parseLoop fuel minBP (.app lhs rhs) ts₁
        | some (lbp, rbp) =>
          if lbp < minBP then .ok (lhs, ts)
          else do
            let (rhs?, ts₁) ← parseExpression fuel rbp (nextT ts).2
            match rhs? with
            | none => .error "Expected expression"
            | some rhs =>
              match binToBuiltin op with
              | none => .error "Missing builtin"
              | some builtinName =>
                parseLoop fuel minBP (.app (.app (.var builtinName) lhs) rhs) ts₁

/-- `parseParenthesized`: after `(`, parse an inner expression; when none
can be parsed, the source consumes the following token WITHOUT checking
that it is `)` and yields the unit literal. -/
def parseParen : ℕ → Tokens → Except String (Option (Expression × Tokens))
  | 0, _ => .error "out of fuel"
  | fuel+1, ts =>
    match ts with
    | .parenL :: rest => do
      let (inner?, ts₁) ← parseExpression fuel 0 rest
      match inner? with
      | none =>
        -- `lexer.next()` with no check on the consumed token
        .ok (some (Expression.unit, (nextT ts₁).2))
      | some inner =>
        if (nextT ts₁).1 = Token.parenR then .ok (some (inner, (nextT ts₁).2))
        else .error "Expected closing parenthesis"
    | _ => .ok none

/-- `parseArray`: bracket-delimited, `.`-separated elements. -/
def parseArray : ℕ → Tokens → Except String (Option (Expression × Tokens))
  | 0, _ => .error "out of fuel"
  | fuel+1, ts =>
    match ts with
    | .bracketL :: rest => do
      let (elements, ts₁) ←
        if peekT rest = Token.bracketR then pure (([] : List Expression), rest)
        else parseElems fuel rest
      if (nextT ts₁).1 = Token.bracketR then .ok (some (Expression.arr elements, (nextT ts₁).2))
      else .error "Expected closing bracket"
    | _ => .ok none

/-- The element loop of `parseArray`. -/
def parseElems : ℕ → Tokens → Except String (List Expression × Tokens)
  | 0, _ => .error "out of fuel"
  | fuel+1, ts => do
    let (e?, ts₁) ← parseExpression fuel 0 ts
    match e? with
    | none => .error "Expected expression"
    | some e =>
      match ts₁ with
      | .dot :: rest => do
        let (es, ts₂) ← parseElems fuel rest
        .ok (e :: es, ts₂)
      | _ => .ok ([e], ts₁)

/-- `parsePrefix` (the prefix forms of `parse.ts`): `@name expr` function
literals (right binding power 1), `let ... in` (1), `if/then/else` (3),
and unary `!`/`-` (19) desugaring to builtin application. -/
def parsePre : ℕ → Tokens → Except String (Option (Expression × Tokens))
  | 0, _ => .error "out of fuel"
  | fuel+1, ts =>
    match ts with
    | .atT :: rest =>
      match rest with
      | .name argName :: rest₂ => do
        let (body?, ts₁) ← parseExpression fuel 1 rest₂
        match body? with
        | none => .error "Expected expression"
        | some body => .ok (some (Expression.defun argName body, ts₁))
      | _ => .error "Expected argument name"
    | .letT :: rest => do
      let (bindings, ts₁) ← parseLetBindings fuel rest
      match ts₁ with
      | .inT :: rest₂ => do
        let (body?, ts₂) ← parseExpression fuel 1 rest₂
        match body? with
        | none => .error "Expected expression"
        | some body => .ok (some (Expression.letE bindings body, ts₂))
      | _ => .error "Expected in"
    | .ifT :: rest => do
      let (cond?, ts₁) ← parseExpression fuel 3 rest
      match cond? with
      | none => .error "Expected expression"
      | some condition =>
        match ts₁ with
        | .thenT :: rest₂ => do
          let (t?, ts₂) ← parseExpression fuel 3 rest₂
          match t? with
          | none => .error "Expected expression"
          | some trueBranch =>
            match ts₂ with
            | .elseT :: rest₃ => do
              let (f?, ts₃) ← parseExpression fuel 3 rest₃
              match f? with
              | none => .error "Expected expression"
              | some falseBranch =>
                .ok (some (Expression.ifE condition trueBranch falseBranch, ts₃))
            | _ => .error "Expected else"
        | _ => .error "Expected then"
    | .notT :: rest => do
      let (operand?, ts₁) ← parseExpression fuel 19 rest
      match operand? with
      | none => .error "Expected expression"
      | some operand => .ok (some (Expression.app (.var "!") operand, ts₁))
    | .minus :: rest => do
      let (operand?, ts₁) ← parseExpression fuel 19 rest
      match operand? with
      | none => .error "Expected expression"
      | some operand => .ok (some (Expression.app (.var "negate") operand, ts₁))
    | _ => .ok none

/-- The binding loop of the `let` prefix form: `name value` pairs separated
by `and`. -/
def parseLetBindings : ℕ → Tokens → Except String (List (String × Expression) × Tokens)
  | 0, _ => .error "out of fuel"
  | fuel+1, ts =>
    match ts with
    | .name varName :: rest => do
      let (v?, ts₁) ← parseExpression fuel 1 rest
      match v? with
      | none => .error "Expected expression"
      | some v =>
        match ts₁ with
        | .letAnd :: rest₂ => do
          let (bs, ts₂) ← parseLetBindings fuel rest₂
          .ok ((varName, v) :: bs, ts₂)
        | _ => .ok ([(varName, v)], ts₁)
    | _ => .error "Expected variable name"

end

/-- Top-level `parse`: a full expression followed by `EOF`. -/
def parse (fuel : ℕ) (ts : Tokens) : Except String Expression := do
  let (e?, ts₁) ← parseExpression fuel 0 ts
  match e? with
  | none => .error "Expected expression"
  | some e =>
    if (nextT ts₁).1 = Token.eof then .ok e else .error "Expected EOF"


/-! ### Runtime values, errors, state (from the evaluator) -/

/-- Builtins of the evaluator's root environment that the development
needs; each is translated from the source's builtin table. -/
inductive Builtin where
  | d | dF | plus | minus | pow | eqB | neB | negate | highest | lowest | reroll
  deriving DecidableEq

/-- Runtime values.  Functions (`typeof === 'function'`) are closures or
(partially applied) builtins; a builtin value carries the arguments
received so far (the source represents this state as nested native
closures produced by `wrapFunction`/`wrapDeferred`). -/
inductive Value where
  | num (n : ℚ)
  | str (s : String)
  | null
  | arr (elements : List Value)
  | closure (param : String) (body : Expression) (env : ℕ)
  | builtin (b : Builtin) (args : List Value)

/-- Runtime errors.  `expected kind got` stands for the source's
`TypeError('Expected <kind>, got <printValue(got)>')`; `outOfFuel` is the
fuel artifact; `unhandled` marks switch fall-throughs where the source
produces `undefined` (no evaluator case matches). -/
inductive Err where
  | outOfFuel
  | undefinedVariable (name : String)
  | expected (kind : String) (got : Value)
  | expectedNumOrArr
  | indexOutOfBounds (index : ℤ)
  | addTypeError
  | unhandled

/-- One `Environment` record: its own variables plus an optional parent
reference (an index into the store). -/
structure Frame where
  vars : List (String × Value)
  parent : Option ℕ

/-- Evaluator state: the store of environment records (JavaScript
environments are mutable and shared, so they live in the state) and the
cursor into the randomness oracle. -/
structure St where
  frames : List Frame
  idx : ℕ

abbrev Res := Except Err (Value × St)

/-! ### Environment operations (class `Environment`) -/

/-- Lookup in a single record's variable list (a JavaScript object with a
null prototype; later same-name assignments overwrite, see `setVar`). -/
def lookupVars (name : String) : List (String × Value) → Option Value
  | [] => none
  | (k, v) :: rest => if name = k then some v else lookupVars name rest

/-- Assignment `vars[name] = v` on a record's variable list. -/
def setVar (vars : List (String × Value)) (name : String) (v : Value) :
    List (String × Value) :=
  match vars with
  | [] => [(name, v)]
  | (k, w) :: rest => if name = k then (name, v) :: rest else (k, w) :: setVar rest name v

/-- `Environment.lookup`: walk the parent chain until the name is found.
The gas parameter bounds the walk; every parent reference produced by the
evaluator points to an earlier record, so `envId + 1` gas (see
`lookupEnv`) always suffices. -/
def lookupGo (frames : List Frame) (name : String) : ℕ → ℕ → Option Value
  | 0, _ => none
  | gas+1, envId =>
    match frames.get? envId with
    | none => none
    | some f =>
      match lookupVars name f.vars with
      | some v => some v
      | none =>
        match f.parent with
        | none => none
        | some p => lookupGo frames name gas p

/-- `Environment.lookup` from record `envId`. -/
def lookupEnv (frames : List Frame) (envId : ℕ) (name : String) : Option Value :=
  lookupGo frames name (envId + 1) envId

/-- `Environment.update`: replace the variable list of record `envId`. -/
def updateVars (frames : List Frame) (envId : ℕ) (vars : List (String × Value)) :
    List Frame :=
  match frames.get? envId with
  | some f => frames.set envId { f with vars := vars }
  | none => frames

/-! ### Numeric helpers

JavaScript numbers are IEEE doubles; the model uses `ℚ`.  `Math.floor`,
`Math.round` and the integer conversion used by `Array.prototype.slice`
are given computable definitions here. -/

/-- `Math.floor` on the rational model (floor division of numerator by
denominator). -/
def qfloor (q : ℚ) : ℤ := q.num.fdiv (q.den : ℤ)

/-- `Math.round`: floor of `q + 1/2`, as in JavaScript. -/
def qround (q : ℚ) : ℤ := qfloor (q + 1/2)

/-- Truncation toward zero (`ToIntegerOrInfinity`, used by `slice`). -/
def qtrunc (q : ℚ) : ℤ := Int.tdiv q.num (q.den : ℤ)

/-- `truthy(value) = value > 0`. -/
def truthy (value : ℚ) : Bool := decide (0 < value)

def MAX_REROLLS : ℕ := 100

/-- `Math.pow` restricted to the rational model: defined for integral
exponents; a non-integral exponent generally has an irrational result and
is outside the model (junk value 0). -/
def powQ (lhs rhs : ℚ) : ℚ := if rhs.den = 1 then lhs ^ rhs.num else 0

/-! ### Deep equality (function `equals`) -/

mutual

/-- Deep equality: values of different categories are unequal; numbers and
strings compare by value; arrays recursively (length and elementwise);
`null === null`; functions compare by reference in the source, which the
model renders as never equal (no two independently produced function
values are reference-identical; the spec leaves function equality open). -/
def equalsVal : Value → Value → Bool
  | .num a, .num b => decide (a = b)
  | .str a, .str b => decide (a = b)
  | .null, .null => true
  | .arr a, .arr b => equalsList a b
  | _, _ => false

/-- Elementwise equality of arrays (the source checks lengths first and
then compares index by index). -/
def equalsList : List Value → List Value → Bool
  | [], [] => true
  | x :: xs, y :: ys => equalsVal x y && equalsList xs ys
  | _, _ => false

end

/-! ### `+` (function `addValues`) -/

/-- Polymorphic `+`: array concatenation, append/prepend of a non-array
to/onto an array, numeric addition, string concatenation; otherwise
`TypeError('Expected number, string, or array')`. -/
def addValues : Value → Value → Except Err Value
  | .arr a, .arr b => .ok (.arr (a ++ b))
  | .arr a, r => .ok (.arr (a ++ [r]))
  | l, .arr b => .ok (.arr (l :: b))
  | .num a, .num b => .ok (.num (a + b))
  | .str a, .str b => .ok (.str (a ++ b))
  | _, _ => .error .addTypeError

/-! ### `highest` / `lowest` (functions `keepHighest` / `keepLowest`)

`Array.prototype.sort` with an `a - b` (resp. `b - a`) comparator sorts
ascending (resp. descending); over `ℚ` the sorted list is unique, so an
insertion sort models it exactly.  `Array.prototype.slice(start)` with a
negative `start` counts from the end, clamped at 0. -/

def insertAsc (x : ℚ) : List ℚ → List ℚ
  | [] => [x]
  | y :: ys => if x ≤ y then x :: y :: ys else y :: insertAsc x ys

def sortAsc : List ℚ → List ℚ
  | [] => []
  | x :: xs => insertAsc x (sortAsc xs)

def insertDesc (x : ℚ) : List ℚ → List ℚ
  | [] => [x]
  | y :: ys => if y ≤ x then x :: y :: ys else y :: insertDesc x ys

def sortDesc : List ℚ → List ℚ
  | [] => []
  | x :: xs => insertDesc x (sortDesc xs)

/-- `Array.prototype.slice(start)` (one-argument form): elements from
`max(len + start, 0)` when `start < 0`, else from `min(start, len)`. -/
def jsSliceFrom (l : List ℚ) (start : ℤ) : List ℚ :=
  if start < 0 then l.drop (max ((l.length : ℤ) + start) 0).toNat
  else l.drop (min start (l.length : ℤ)).toNat

/-- `keepHighest(items, n) = sort-ascending(copy of items).slice(items.length - n)`. -/
def keepHighest (items : List ℚ) (n : ℚ) : List ℚ :=
  jsSliceFrom (sortAsc items) (qtrunc ((items.length : ℚ) - n))

/-- `keepLowest(items, n) = sort-descending(copy of items).slice(items.length - n)`. -/
def keepLowest (items : List ℚ) (n : ℚ) : List ℚ :=
  jsSliceFrom (sortDesc items) (qtrunc ((items.length : ℚ) - n))

/-- Extract the numeric elements of a guarded array (after
`expectArrayOfNumbers` every element is a number; the non-number case is
unreachable). -/
def toQList : List Value → List ℚ
  | [] => []
  | .num q :: rest => q :: toQList rest
  | _ :: rest => toQList rest

/-! ### Argument guards (functions `expectNumber`, `expectNull`, ...) -/

def isFunction : Value → Bool
  | .closure _ _ _ => true
  | .builtin _ _ => true
  | _ => false

def guardNumber (v : Value) : Except Err Unit :=
  match v with
  | .num _ => .ok ()
  | _ => .error (.expected "number" v)

def guardNull (v : Value) : Except Err Unit :=
  match v with
  | .null => .ok ()
  | _ => .error (.expected "null" v)

def guardFunction (v : Value) : Except Err Unit :=
  if isFunction v then .ok () else .error (.expected "function" v)

def guardNumList (elements : List Value) : Except Err Unit :=
  match elements with
  | [] => .ok ()
  | v :: rest =>
    match v with
    | .num _ => guardNumList rest
    | _ => .error (.expected "number" v)

/-- `expectArrayOfNumbers`. -/
def guardNumberArray (v : Value) : Except Err Unit :=
  match v with
  | .arr elements => guardNumList elements
  | _ => .error (.expected "array" v)

def guardAny (_ : Value) : Except Err Unit := .ok ()

/-- Parameter count of each builtin (the length of its guard list). -/
def arity : Builtin → ℕ
  | .d => 1
  | .dF => 1
  | .negate => 1
  | _ => 2

/-- The per-position guards of each builtin, as in the source's
`wrapFunction(fn, [guard₀, guard₁, ...])` tables.  Note `'='` guards with
`expectAny` but `'!='` guards with `expectNumber` on both positions. -/
def guardFor : Builtin → ℕ → Value → Except Err Unit
  | .d, _ => guardAny
  | .dF, _ => guardNull
  | .plus, _ => guardAny
  | .minus, _ => guardNumber
  | .pow, _ => guardNumber
  | .eqB, _ => guardAny
  | .neB, _ => guardNumber
  | .negate, _ => guardNumber
  | .highest, 0 => guardNumber
  | .highest, _ => guardNumberArray
  | .lowest, 0 => guardNumber
  | .lowest, _ => guardNumberArray
  | .reroll, _ => guardFunction

/-! ### The `d` and `reroll` builtins -/

/-- The nested-array descent of builtin `d`: pick a uniformly random
element until a number or string leaf is found.  Each iteration consumes
one oracle entry; an index outside the array (only possible when the
oracle leaves `[0, 1)`, or for an empty array, where the source reads
`undefined`) is the source's `Error('Expected number or array of
numbers')` path. -/
def dPick (oracle : ℕ → ℚ) : List Value → St → Res
  | currentArray, s =>
    let i : ℤ := qfloor (oracle s.idx * (currentArray.length : ℚ))
    let s' : St := { s with idx := s.idx + 1 }
    if i < 0 then .error .expectedNumOrArr
    else
      match hm : currentArray.get? i.toNat with
      | none => .error .expectedNumOrArr
      | some (.num q) => .ok (.num q, s')
      | some (.str v) => .ok (.str v, s')
      | some (.arr inner) => dPick oracle inner s'
      | some _ => .error .expectedNumOrArr
termination_by currentArray => sizeOf currentArray
decreasing_by
  have hmem : Value.arr inner ∈ currentArray := List.get?_mem hm
  have h1 : sizeOf (Value.arr inner) < sizeOf currentArray :=
    List.sizeOf_lt_of_mem hmem
  have h2 : sizeOf inner < sizeOf (Value.arr inner) := by
    simp only [Value.arr.sizeOf_spec]
    omega
  omega

/-- The body of builtin `reroll`: roll (`rollFn(null)`), test
(`condFn(rollResult)`), accept on a truthy test, and stop in any case
after `MAX_REROLLS + 1` attempts.  The source counts attempts up
(`i++; if (truthy(...) || i > MAX_REROLLS) report(rollResult)`); the
countdown here is `MAX_REROLLS + 1 - i`, so the initial call uses
`MAX_REROLLS` and the cap is reached at countdown 0. -/
def rerollLoop (applyV : Value → Value → St → Res) (roll cond : Value) :
    ℕ → St → Res
  | countdown, s => do
    let (rollResult, s₁) ← applyV roll .null s
    let (condResult, s₂) ← applyV cond rollResult s₁
    match condResult with
    | .num c =>
      if truthy c then .ok (rollResult, s₂)
      else
        match countdown with
        | 0 => .ok (rollResult, s₂)
        | k+1 => rerollLoop applyV roll cond k s₂
    | v => .error (.expected "number" v)

/-! ### Builtin dispatch -/

/-- Run a fully applied builtin.  `applyV` is how a deferred builtin calls
back into the evaluator to invoke one of its function arguments (the
source's `call(input, arg, continuation)` protocol).  Catch-all arms are
unreachable: the per-argument guards have already established the argument
categories, and the argument count equals `arity b`. -/
def runBuiltin (oracle : ℕ → ℚ) (applyV : Value → Value → St → Res)
    (b : Builtin) (args : List Value) (s : St) : Res :=
  match b, args with
  | .d, [n] =>
    match n with
    | .num m =>
      .ok (.num (((qfloor (oracle s.idx * (qround m : ℚ)) + 1 : ℤ) : ℚ)),
           { s with idx := s.idx + 1 })
    | .arr elements => dPick oracle elements s
    | _ => .error .expectedNumOrArr
  | .dF, [_] =>
    let i : ℤ := qfloor (oracle s.idx * 3)
    if i < 0 then .error .unhandled
    else
      match [(-1 : ℚ), 0, 1].get? i.toNat with
      | some v => .ok (.num v, { s with idx := s.idx + 1 })
      | none => .error .unhandled
  | .plus, [l, r] => (addValues l r).map (fun v => (v, s))
  | .minus, [.num l, .num r] => .ok (.num (l - r), s)
  | .pow, [.num l, .num r] => .ok (.num (powQ l r), s)
  | .eqB, [l, r] => .ok (.num (if equalsVal l r then 1 else 0), s)
  | .neB, [l, r] => .ok (.num (if equalsVal l r then 0 else 1), s)
  | .negate, [.num r] => .ok (.num (-r), s)
  | .highest, [.num nv, .arr elements] =>
    .ok (.arr ((keepHighest (toQList elements) nv).map Value.num), s)
  | .lowest, [.num nv, .arr elements] =>
    .ok (.arr ((keepLowest (toQList elements) nv).map Value.num), s)
  | .reroll, [roll, cond] => rerollLoop applyV roll cond MAX_REROLLS s
  | _, _ => .error .unhandled

/-! ### The numeric-application loop

`Apply` with a numeric callee `n` re-evaluates the argument expression
while `numRemaining > 0`, starting from `numRemaining = n` and decrementing
by 1, collecting the values in evaluation order. -/

/-- The source loop, with its rational counter. -/
def evalRepeat (evalArg : St → Res) (n : ℚ) (s : St) (acc : List Value) : Res :=
  if n ≤ 0 then .ok (.arr acc, s)
  else do
    let (v, s') ← evalArg s
    evalRepeat evalArg (n - 1) s' (acc ++ [v])
termination_by (max ⌈n⌉ 0).toNat
decreasing_by
  rename_i h
  have h1 : (0 : ℚ) < n := lt_of_not_le h
  have h2 : (1 : ℤ) ≤ ⌈n⌉ := Int.one_le_ceil_iff.mpr (by exact_mod_cast h1)
  have h3 : ⌈n - 1⌉ = ⌈n⌉ - 1 := by rw [Int.ceil_sub_one]
  omega

/-- Iterating the argument evaluation an explicit number of times;
`evalRepeat` performs exactly `(max ⌈n⌉ 0).toNat` iterations of this
(theorem `evalRepeat_eq_evalRepeatN`). -/
def evalRepeatN (evalArg : St → Res) : ℕ → St → List Value → Res
  | 0, s, acc => .ok (.arr acc, s)
  | k+1, s, acc => do
    let (v, s') ← evalArg s
    evalRepeatN evalArg k s' (acc ++ [v])

/-! ### The evaluator (function `evaluate` of the evaluator module)

`evalExpr` dispatches on the node kind exactly as the source's driving
loop; `applyValue` is the application of an already evaluated function
value to an already evaluated argument (invoking a closure's `ExprFunc`,
or the next curried stage of a builtin).  The first `ℕ` of each is fuel. -/

mutual

def evalExpr (oracle : ℕ → ℚ) : ℕ → Expression → ℕ → St → Res
  | 0, _, _, _ => .error .outOfFuel
  | fuel+1, e, envId, s =>
    match e with
    | .unit => .ok (.null, s)
    | .num v => .ok (.num v, s)
    | .str v => .ok (.str v, s)
    | .arr elements => evalElems oracle fuel elements envId s []
    | .var name =>
      match lookupEnv s.frames envId name with
      | some v => .ok (v, s)
      | none => .error (.undefinedVariable name)
    | .app lhs rhs => do
      let (lv, s₁) ← evalExpr oracle fuel lhs envId s
      match lv with
      | .closure _ _ _ | .builtin _ _ => do
        -- function callee: evaluate the argument once, then invoke
        let (rv, s₂) ← evalExpr oracle fuel rhs envId s₁
        applyValue oracle fuel lv rv s₂
      | .num n =>
        -- numeric callee: re-evaluate the argument expression n times
        evalRepeat (fun t => evalExpr oracle fuel rhs envId t) n s₁ []
      | .arr elements => do
        -- array callee: evaluate the argument once and round it to an index
        let (rv, s₂) ← evalExpr oracle fuel rhs envId s₁
        match rv with
        | .num q =>
          let i : ℤ := qround q
          if i < 0 ∨ (elements.length : ℤ) ≤ i then .error (.indexOutOfBounds i)
          else
            match elements.get? i.toNat with
            | some v => .ok (v, s₂)
            | none => .error (.indexOutOfBounds i)
        | v => .error (.expected "number" v)
      | .null =>
        -- typeof null = 'object': the array arm's expectArray throws
        .error (.expected "array" Value.null)
      | .str _ =>
        -- no switch case for a string callee: the source's driving loop
        -- stops and `evaluate` returns undefined
        .error .unhandled
    | .defun argument body => .ok (.closure argument body envId, s)
    | .letE bindings body =>
      match bindings with
      | [] =>
        -- unreachable: the grammar requires at least one binding
        .error .unhandled
      | _ =>
        -- a new record, initially empty, child of the current environment;
        -- its variables are published only after all bindings evaluate
        let newId := s.frames.length
        let s' : St := { s with frames := s.frames ++ [⟨[], some envId⟩] }
        evalBindings oracle fuel newId body bindings s' []
    | .ifE condition trueBranch falseBranch => do
      let (cv, s₁) ← evalExpr oracle fuel condition envId s
      match cv with
      | .num c =>
        if truthy c then evalExpr oracle fuel trueBranch envId s₁
        else evalExpr oracle fuel falseBranch envId s₁
      | v => .error (.expected "number" v)

/-- Apply a function value: a closure binds its parameter in a fresh child
record of its captured environment and evaluates its body there; a builtin
guards the incoming argument with the guard for its position and either
stores it (curried stage) or, when saturated, runs. -/
def applyValue (oracle : ℕ → ℚ) : ℕ → Value → Value → St → Res
  | 0, _, _, _ => .error .outOfFuel
  | fuel+1, callee, arg, s =>
    match callee with
    | .closure param body envId =>
      let newId := s.frames.length
      let s' : St := { s with frames := s.frames ++ [⟨[(param, arg)], some envId⟩] }
      evalExpr oracle fuel body newId s'
    | .builtin b args => do
      let _ ← guardFor b args.length arg
      let args' := args ++ [arg]
      if args'.length = arity b then
        runBuiltin oracle (fun v a t => applyValue oracle fuel v a t) b args' s
      else .ok (.builtin b args', s)
    | v => .error (.expected "function" v)

/-- The element loop of the array-literal case: strictly left to right,
collecting in order. -/
def evalElems (oracle : ℕ → ℚ) : ℕ → List Expression → ℕ → St → List Value → Res
  | 0, _, _, _, _ => .error .outOfFuel
  | _+1, [], _, s, acc => .ok (.arr acc, s)
  | fuel+1, e :: rest, envId, s, acc => do
    let (v, s') ← evalExpr oracle fuel e envId s
    evalElems oracle fuel rest envId s' (acc ++ [v])

/-- The binding loop of the `let` case: each binding's value-expression is
evaluated with `newId` current (whose record is still empty, so lookups
fall through to the enclosing environment); once all bindings are
evaluated they are published at once (`newEnv.update(newVars)`) and the
body is evaluated. -/
def evalBindings (oracle : ℕ → ℚ) :
    ℕ → ℕ → Expression → List (String × Expression) → St → List (String × Value) → Res
  | 0, _, _, _, _, _ => .error .outOfFuel
  | fuel+1, newId, body, [], s, acc =>
    let s' : St := { s with frames := updateVars s.frames newId acc }
    evalExpr oracle fuel body newId s'
  | fuel+1, newId, body, (nm, vexpr) :: rest, s, acc => do
    let (v, s₁) ← evalExpr oracle fuel vexpr newId s
    evalBindings oracle fuel newId body rest s₁ (setVar acc nm v)

end

/-! ### Top level -/

/-- The root environment: the builtin table (the subset of the source's
table that this development exercises). -/
def rootVars : List (String × Value) :=
  [("d", .builtin .d []),
   ("dF", .builtin .dF []),
   ("highest", .builtin .highest []),
   ("lowest", .builtin .lowest []),
   ("reroll", .builtin .reroll []),
   ("negate", .builtin .negate []),
   ("+", .builtin .plus []),
   ("-", .builtin .minus []),
   ("**", .builtin .pow []),
   ("=", .builtin .eqB []),
   ("!=", .builtin .neB [])]

/-- The initial state: the root environment record, oracle cursor 0. -/
def initSt : St := ⟨[⟨rootVars, none⟩], 0⟩

/-- `evaluate(expr)`: run the expression in a fresh root environment and
return the final value. -/
def evaluate (oracle : ℕ → ℚ) (fuel : ℕ) (e : Expression) : Except Err Value :=
  match evalExpr oracle fuel e 0 initSt with
  | .ok (v, _) => .ok v
  | .error err => .error err

/-- A fixed all-zero oracle for concrete runs whose programs use no
randomness (or, for `dF`, always produce the first face). -/
def oracle0 : ℕ → ℚ := fun _ => 0

end Eurydice

/-! ## Shared lemmas -/

namespace Eurydice

/-- Reduction of an `Except` bind on a success value (used to drive
concrete evaluations through `simp`). -/
theorem ok_bind {ε α β : Type} (x : α) (f : α → Except ε β) :
    (Except.ok x : Except ε α) >>= f = f x := rfl

/-- Reduction of an `Except` bind on an error. -/
theorem error_bind {ε α β : Type} (e : ε) (f : α → Except ε β) :
    (Except.error e : Except ε α) >>= f = Except.error e := rfl

/-- The numeric-application loop (rational counter, decremented by 1 while
positive) performs exactly `(max ⌈n⌉ 0).toNat` evaluations of the
argument. -/
theorem evalRepeat_eq_evalRepeatN (evalArg : St → Res) (n : ℚ) (s : St) (acc : List Value) :
    evalRepeat evalArg n s acc = evalRepeatN evalArg (max ⌈n⌉ 0).toNat s acc := by
  generalize hk : (max ⌈n⌉ 0).toNat = k
  induction k generalizing n s acc with
  | zero =>
    have hn : n ≤ 0 := by
      have : ⌈n⌉ ≤ 0 := by omega
      exact_mod_cast Int.ceil_le.mp (by exact_mod_cast this)
    rw [evalRepeat, if_pos hn, evalRepeatN]
  | succ k ih =>
    have hpos : (1 : ℤ) ≤ ⌈n⌉ := by omega
    have hn : ¬ (n ≤ 0) := by
      intro hle
      have : ⌈n⌉ ≤ 0 := by exact_mod_cast Int.ceil_le.mpr (by exact_mod_cast hle)
      omega
    have hceil : ⌈n - 1⌉ = ⌈n⌉ - 1 := by rw [Int.ceil_sub_one]
    rw [evalRepeat, if_neg hn, evalRepeatN]
    cases hv : evalArg s with
    | error e => rfl
    | ok r =>
      obtain ⟨v, s2⟩ := r
      exact ih (n - 1) s2 (acc ++ [v]) (by omega)

theorem insertAsc_length (x : ℚ) (l : List ℚ) : (insertAsc x l).length = l.length + 1 := by
  induction l with
  | nil => rfl
  | cons y ys ih =>
    rw [insertAsc]
    split
    · simp
    · simp [ih]

theorem sortAsc_length (l : List ℚ) : (sortAsc l).length = l.length := by
  induction l with
  | nil => rfl
  | cons x xs ih => rw [sortAsc, insertAsc_length, ih]; rfl

theorem insertDesc_length (x : ℚ) (l : List ℚ) : (insertDesc x l).length = l.length + 1 := by
  induction l with
  | nil => rfl
  | cons y ys ih =>
    rw [insertDesc]
    split
    · simp
    · simp [ih]

theorem sortDesc_length (l : List ℚ) : (sortDesc l).length = l.length := by
  induction l with
  | nil => rfl
  | cons x xs ih => rw [sortDesc, insertDesc_length, ih]; rfl

/-- Truncation toward zero is the identity on integers. -/
theorem qtrunc_intCast (k : ℤ) : qtrunc ((k : ℤ) : ℚ) = k := by
  rw [qtrunc, Rat.num_intCast, Rat.den_intCast]
  simp [Int.tdiv_one]

/-- Elementwise deep equality of numeric arrays is list equality. -/
theorem equalsList_map_num (xs ys : List ℚ) :
    equalsList (xs.map Value.num) (ys.map Value.num) = decide (xs = ys) := by
  induction xs generalizing ys with
  | nil => cases ys <;> simp [equalsList]
  | cons x xs ih =>
    cases ys with
    | nil => simp [equalsList]
    | cons y ys => simp [equalsList, equalsVal, ih, List.cons.injEq, Bool.decide_and]

/-! ## Claims -/

/-- C1: for every `Apply` node whose callee evaluates to a number `n`
(`n` an integer `k`), the evaluator re-evaluates the argument expression
exactly `max(k, 0)` times — the result is the `max(k, 0)`-fold iteration
`evalRepeatN` of the argument's evaluation, threading the state and
collecting the values in evaluation order — and whenever `n ≤ 0` the
result is the empty array with the state exactly as after the callee, for
every argument expression `a` (so the argument is never evaluated). -/
theorem apply_number (oracle : ℕ → ℚ) (fuel : ℕ) (c a : Expression) (envId : ℕ)
    (s s₁ : St) (n : ℚ) (k : ℤ)
    (hc : evalExpr oracle fuel c envId s = .ok (.num n, s₁)) (hk : n = (k : ℚ)) :
    evalExpr oracle (fuel + 1) (.app c a) envId s
      = evalRepeatN (fun t => evalExpr oracle fuel a envId t) (max k 0).toNat s₁ []
    ∧ (n ≤ 0 → evalExpr oracle (fuel + 1) (.app c a) envId s = .ok (.arr [], s₁)) := by
  have hmain : evalExpr oracle (fuel + 1) (.app c a) envId s
      = evalRepeat (fun t => evalExpr oracle fuel a envId t) n s₁ [] := by
    rw [evalExpr, hc]
    rfl
  have hceil : ⌈n⌉ = k := by rw [hk, Int.ceil_intCast]
  constructor
  · rw [hmain, evalRepeat_eq_evalRepeatN, hceil]
  · intro hle
    rw [hmain, evalRepeat, if_pos hle]

/-- Witness for C1: `(-1) (2+2)` evaluates to `[]` with the state
untouched, the inner `2+2` never evaluated. -/
theorem apply_number_witness :
    evalExpr oracle0 3 (.app (.num (-1)) (.app (.app (.var "+") (.num 2)) (.num 2))) 0 initSt
      = .ok (.arr [], initSt) :=
  (apply_number oracle0 2 (.num (-1)) (.app (.app (.var "+") (.num 2)) (.num 2)) 0
    initSt initSt (-1) (-1) rfl (by norm_num)).2 (by norm_num)

/-- C2: let-bindings cannot see their siblings.  The program
`let x 5 and y x + 1 in [x. y]` parses and evaluates to the error
`Undefined variable: x`; `let x 1 and y x` applied to ANY body fails the
same way; and the `let` evaluation rule evaluates every binding against a
freshly appended EMPTY environment record (published only after the last
binding, in `evalBindings`' base case). -/
theorem let_siblings :
    (∀ oracle : ℕ → ℚ, ∃ e : Expression,
      parse 32 [.letT, .name "x", .number 5, .letAnd, .name "y", .name "x", .plus, .number 1,
        .inT, .bracketL, .name "x", .dot, .name "y", .bracketR, .eof] = .ok e
      ∧ evaluate oracle 32 e = .error (.undefinedVariable "x"))
    ∧ (∀ (oracle : ℕ → ℚ) (body : Expression) (fuel : ℕ),
        evalExpr oracle (fuel + 4) (.letE [("x", .num 1), ("y", .var "x")] body) 0 initSt
          = .error (.undefinedVariable "x"))
    ∧ (∀ (oracle : ℕ → ℚ) (fuel envId : ℕ) (s : St) (nm : String) (ve body : Expression)
        (rest : List (String × Expression)),
        evalExpr oracle (fuel + 1) (.letE ((nm, ve) :: rest) body) envId s
          = evalBindings oracle fuel s.frames.length body ((nm, ve) :: rest)
              { s with frames := s.frames ++ [⟨[], some envId⟩] } []) := by
  refine ⟨fun oracle => ⟨_, rfl, rfl⟩, fun oracle body fuel => rfl,
    fun oracle fuel envId s nm ve body rest => rfl⟩

/-- C3: a function literal evaluates to a closure capturing the
environment current at its definition site; applying a closure binds the
parameter in a fresh child record of the captured environment; a lookup of
the parameter in that child record finds the argument (shadowing any
ancestor binding); and the program
`let x 5 in (let closure @x @y [x. y] in closure 3), 2` parses and
evaluates to `[3, 2]`. -/
theorem closures_capture :
    (∀ (oracle : ℕ → ℚ) (fuel : ℕ) (p : String) (b : Expression) (envId : ℕ) (s : St),
      evalExpr oracle (fuel + 1) (.defun p b) envId s = .ok (.closure p b envId, s))
    ∧ (∀ (oracle : ℕ → ℚ) (fuel : ℕ) (p : String) (b : Expression) (envId : ℕ) (v : Value) (s : St),
      applyValue oracle (fuel + 1) (.closure p b envId) v s
        = evalExpr oracle fuel b s.frames.length
            { s with frames := s.frames ++ [⟨[(p, v)], some envId⟩] })
    ∧ (∀ (frames : List Frame) (p : String) (v : Value) (envId : ℕ),
      lookupEnv (frames ++ [⟨[(p, v)], some envId⟩]) frames.length p = some v)
    ∧ (∀ oracle : ℕ → ℚ, ∃ e : Expression,
      parse 32 [.letT, .name "x", .number 5, .inT,
        .parenL, .letT, .name "closure", .atT, .name "x", .atT, .name "y",
        .bracketL, .name "x", .dot, .name "y", .bracketR,
        .inT, .name "closure", .number 3, .parenR, .comma, .number 2, .eof] = .ok e
      ∧ evaluate oracle 32 e = .ok (.arr [.num 3, .num 2])) := by
  refine ⟨fun _ _ _ _ _ _ => rfl, fun _ _ _ _ _ _ _ => rfl, ?_, fun oracle => ⟨_, rfl, rfl⟩⟩
  intro frames p v envId
  simp [lookupEnv, lookupGo, List.getElem?_concat_length, lookupVars]

/-- C4 counterexample: `f a b` does NOT parse as `Apply(Apply(f, a), b)`
(it parses as `Apply(f, Apply(a, b))`): juxtaposition is not
left-associative. -/
theorem juxt_not_left_assoc :
    parse 32 [.name "f", .name "a", .name "b", .eof]
      ≠ .ok (.app (.app (.var "f") (.var "a")) (.var "b")) := by
  rw [show parse 32 [Token.name "f", .name "a", .name "b", .eof]
      = .ok (.app (.var "f") (.app (.var "a") (.var "b"))) from rfl]
  simp

/-- C4 amended: function application via juxtaposition is
right-associative (`emptyBindingPower = [24, 23]`, right power below
left): for all identifiers `f a b`, the source `f a b` parses as
`Apply(f, Apply(a, b))`. -/
theorem juxt_right_assoc (f a b : String) :
    parse 32 [.name f, .name a, .name b, .eof]
      = .ok (.app (.var f) (.app (.var a) (.var b))) := rfl

/-- C5 counterexample: `a ** b ** c` parses LEFT-associatively
(`POWER` has binding powers `[17, 18]`, the same left-associative pattern
as every other operator), so `2 ** 3 ** 2` parses as `(2 ** 3) ** 2` and
evaluates to 64, not 512. -/
theorem power_not_right_assoc :
    (parse 32 [.number 2, .power, .number 3, .power, .number 2, .eof]
      = .ok (.app (.app (.var "**") (.app (.app (.var "**") (.num 2)) (.num 3))) (.num 2)))
    ∧ (parse 32 [.number 2, .power, .number 3, .power, .number 2, .eof]
      ≠ .ok (.app (.app (.var "**") (.num 2)) (.app (.app (.var "**") (.num 3)) (.num 2))))
    ∧ evaluate oracle0 32
        (.app (.app (.var "**") (.app (.app (.var "**") (.num 2)) (.num 3))) (.num 2))
      = .ok (.num 64)
    ∧ evaluate oracle0 32
        (.app (.app (.var "**") (.app (.app (.var "**") (.num 2)) (.num 3))) (.num 2))
      ≠ .ok (.num 512) := by
  have heval : evaluate oracle0 32
      (.app (.app (.var "**") (.app (.app (.var "**") (.num 2)) (.num 3))) (.num 2))
      = .ok (.num (powQ (powQ 2 3) 2)) := rfl
  have hpow : powQ (powQ 2 3) 2 = 64 := by
    norm_num [powQ, Rat.den_ofNat, Rat.num_ofNat]
  refine ⟨rfl, by rw [show parse 32 [Token.number 2, .power, .number 3, .power, .number 2, .eof]
      = .ok (.app (.app (.var "**") (.app (.app (.var "**") (.num 2)) (.num 3))) (.num 2)) from rfl]; simp,
    by rw [heval, hpow], by rw [heval, hpow]; simp⟩

/-- C5 amended: every binary operator parses left-associatively,
INCLUDING `**`: `a - b - c` parses as `(a - b) - c`, `a ** b ** c` parses
as `(a ** b) ** c`, and `2 ** 3 ** 2` evaluates to 64. -/
theorem binops_left_assoc :
    (∀ a b c : String,
      parse 32 [.name a, .minus, .name b, .minus, .name c, .eof]
        = .ok (.app (.app (.var "-") (.app (.app (.var "-") (.var a)) (.var b))) (.var c)))
    ∧ (∀ a b c : String,
      parse 32 [.name a, .power, .name b, .power, .name c, .eof]
        = .ok (.app (.app (.var "**") (.app (.app (.var "**") (.var a)) (.var b))) (.var c)))
    ∧ evaluate oracle0 32
        (.app (.app (.var "**") (.app (.app (.var "**") (.num 2)) (.num 3))) (.num 2))
      = .ok (.num 64) := by
  have hpow : powQ (powQ 2 3) 2 = 64 := by
    norm_num [powQ, Rat.den_ofNat, Rat.num_ofNat]
  exact ⟨fun _ _ _ => rfl, fun _ _ _ => rfl,
    by rw [show evaluate oracle0 32
        (.app (.app (.var "**") (.app (.app (.var "**") (.num 2)) (.num 3))) (.num 2))
        = .ok (.num (powQ (powQ 2 3) 2)) from rfl, hpow]⟩

/-- C6: a conditional treats its condition value `x` as true exactly when
`x > 0` (`truthy`), taking the true branch for `x > 0` and the false
branch for `x ≤ 0`; in each case the result is exactly the evaluation of
the taken branch (for EVERY other-branch expression, which is therefore
not evaluated). -/
theorem if_truthiness (oracle : ℕ → ℚ) (fuel : ℕ) (c t f : Expression) (envId : ℕ)
    (s s₁ : St) (x : ℚ)
    (hc : evalExpr oracle fuel c envId s = .ok (.num x, s₁)) :
    (0 < x → evalExpr oracle (fuel + 1) (.ifE c t f) envId s = evalExpr oracle fuel t envId s₁)
    ∧ (x ≤ 0 → evalExpr oracle (fuel + 1) (.ifE c t f) envId s = evalExpr oracle fuel f envId s₁)
    ∧ (truthy x = true ↔ 0 < x) := by
  have hmain : evalExpr oracle (fuel + 1) (.ifE c t f) envId s
      = if truthy x then evalExpr oracle fuel t envId s₁
        else evalExpr oracle fuel f envId s₁ := by
    rw [evalExpr, hc]
    rfl
  refine ⟨fun hx => ?_, fun hx => ?_, by simp [truthy]⟩
  · rw [hmain, if_pos (by simp [truthy, hx])]
  · rw [hmain, if_neg (by simp [truthy]; exact hx)]

/-- Witness for C6: `if 1 then 42 else ()` evaluates the true branch. -/
theorem if_truthiness_witness :
    evalExpr oracle0 2 (.ifE (.num 1) (.num 42) .unit) 0 initSt
      = evalExpr oracle0 1 (.num 42) 0 initSt :=
  (if_truthiness oracle0 1 (.num 1) (.num 42) .unit 0 initSt initSt 1 rfl).1 (by norm_num)

/-- C7 counterexample: `[1. 2. 3] != [1. 2. 3]` parses, and evaluating it
raises `Expected number, got [1, 2, 3]` (the `!=` builtin guards both
operands with `expectNumber`), rather than returning 0. -/
theorem neq_array_type_error :
    ∃ e : Expression,
      parse 32 [.bracketL, .number 1, .dot, .number 2, .dot, .number 3, .bracketR, .ne,
        .bracketL, .number 1, .dot, .number 2, .dot, .number 3, .bracketR, .eof] = .ok e
      ∧ evaluate oracle0 32 e
          = .error (.expected "number" (.arr [.num 1, .num 2, .num 3])) :=
  ⟨_, rfl, rfl⟩

/-- C7 amended: `=` compares by structural deep equality — on numeric
arrays `equalsVal` is exactly list equality, `[1. 2. 3] = [1. 2. 3]`
evaluates to 1 and `[1. 2. 3] = [1. 2. 4]` to 0 — while `!=` computes the
negation of the same deep equality but type-guards both operands as
numbers, so `!=` on an array operand raises `Expected number, got ...`
instead of returning the negation. -/
theorem eq_structural_equality :
    (∀ xs ys : List ℚ,
      equalsVal (.arr (xs.map Value.num)) (.arr (ys.map Value.num)) = decide (xs = ys))
    ∧ (∀ elements : List Value,
      guardFor .neB 0 (.arr elements) = .error (.expected "number" (.arr elements)))
    ∧ (∃ e : Expression,
      parse 32 [.bracketL, .number 1, .dot, .number 2, .dot, .number 3, .bracketR, .eq,
        .bracketL, .number 1, .dot, .number 2, .dot, .number 3, .bracketR, .eof] = .ok e
      ∧ evaluate oracle0 32 e = .ok (.num 1))
    ∧ (∃ e : Expression,
      parse 32 [.bracketL, .number 1, .dot, .number 2, .dot, .number 3, .bracketR, .eq,
        .bracketL, .number 1, .dot, .number 2, .dot, .number 4, .bracketR, .eof] = .ok e
      ∧ evaluate oracle0 32 e = .ok (.num 0)) := by
  refine ⟨?_, fun _ => rfl, ⟨_, rfl, rfl⟩, ⟨_, rfl, rfl⟩⟩
  intro xs ys
  rw [show equalsVal (.arr (xs.map Value.num)) (.arr (ys.map Value.num))
      = equalsList (xs.map Value.num) (ys.map Value.num) from rfl,
    equalsList_map_num]

/-- The `dF` builtin under the all-zero oracle rolls `-1` and advances the
oracle cursor by exactly one. -/
theorem applyValue_dF (F : ℕ) (t : St) :
    applyValue oracle0 (F + 1) (.builtin .dF []) .null t
      = .ok (.num (-1), { t with idx := t.idx + 1 }) := by
  rw [applyValue]
  norm_num [guardFor, guardNull, arity, runBuiltin, oracle0, qfloor]
  rfl

/-- Applying the partial application `(= 1)` to the number `x ≠ 1` yields
0 and leaves the state unchanged. -/
theorem applyValue_eqOne (F : ℕ) (x : ℚ) (t : St) (hx : x ≠ 1) :
    applyValue oracle0 (F + 1) (.builtin .eqB [.num 1]) (.num x) t = .ok (.num 0, t) := by
  rw [applyValue]
  norm_num [guardFor, guardAny, arity, runBuiltin, equalsVal]
  simp only [hx.symm, if_false]
  rfl

/-- Applying the partial application `(= 1)` to any value succeeds with a
number and leaves the state unchanged. -/
theorem applyValue_eqB_state (F : ℕ) (x : Value) (t : St) :
    applyValue oracle0 (F + 1) (.builtin .eqB [.num 1]) x t
      = .ok (.num (if equalsVal (.num 1) x then 1 else 0), t) := rfl

/-- With roll function `dF` (all-zero oracle, always rolls `-1`) and
condition `(= 1)` (always falsy on `-1`), the reroll loop started at
countdown `k` performs exactly `k + 1` roll attempts (the oracle cursor
advances by `k + 1`) and returns the last roll. -/
theorem rerollLoop_dF_falsy (F k : ℕ) (s : St) :
    rerollLoop (fun v a t => applyValue oracle0 (F + 1) v a t)
      (.builtin .dF []) (.builtin .eqB [.num 1]) k s
      = .ok (.num (-1), { s with idx := s.idx + (k + 1) }) := by
  have hcond : ∀ t : St, applyValue oracle0 (F + 1) (.builtin .eqB [.num 1]) (.num (-1)) t
      = .ok (.num 0, t) := fun t => applyValue_eqOne F (-1) t (by norm_num)
  induction k generalizing s with
  | zero =>
    rw [rerollLoop]
    norm_num [applyValue_dF, hcond, ok_bind, truthy]
  | succ k ih =>
    rw [rerollLoop]
    norm_num [applyValue_dF, hcond, ok_bind, truthy, ih]
    omega

/-- C8 counterexample: `reroll dF (= 1)` under the all-zero oracle makes
exactly 101 roll attempts — the oracle cursor, advanced once per `dF`
call, ends at 101, exceeding the claimed bound of `MAX_REROLLS = 100` —
and returns the last roll silently. -/
theorem reroll_makes_101_rolls :
    applyValue oracle0 6 (.builtin .reroll [.builtin .dF []]) (.builtin .eqB [.num 1]) initSt
      = .ok (.num (-1), ⟨[⟨rootVars, none⟩], 101⟩)
    ∧ MAX_REROLLS < 101 := by
  refine ⟨?_, by decide⟩
  have h := rerollLoop_dF_falsy 4 MAX_REROLLS initSt
  calc applyValue oracle0 6 (.builtin .reroll [.builtin .dF []]) (.builtin .eqB [.num 1]) initSt
      = rerollLoop (fun v a t => applyValue oracle0 (4 + 1) v a t)
          (.builtin .dF []) (.builtin .eqB [.num 1]) MAX_REROLLS initSt := rfl
    _ = .ok (.num (-1), { initSt with idx := initSt.idx + (MAX_REROLLS + 1) }) := h
    _ = .ok (.num (-1), ⟨[⟨rootVars, none⟩], 101⟩) := rfl

/-- C8 amended: the reroll loop always terminates with the most recent
roll, and performs at most `countdown + 1` roll attempts — with the
initial countdown `MAX_REROLLS`, at most `MAX_REROLLS + 1 = 101` calls of
the roll function (counted here through the oracle cursor, which each
roll advances by exactly one and the condition leaves unchanged). -/
theorem reroll_at_most_101 (applyV : Value → Value → St → Res) (roll cond : Value)
    (hroll : ∀ t r, applyV roll .null t = .ok r → r.2.idx = t.idx + 1)
    (hcond : ∀ x t r, applyV cond x t = .ok r → r.2.idx = t.idx)
    (k : ℕ) (s : St) (v : Value) (s' : St)
    (h : rerollLoop applyV roll cond k s = .ok (v, s')) :
    s'.idx ≤ s.idx + (k + 1) := by
  induction k generalizing s with
  | zero =>
    rw [rerollLoop] at h
    cases hr : applyV roll .null s with
    | error e => simp only [hr, error_bind] at h; exact absurd h (by simp)
    | ok rp =>
      obtain ⟨rv, s₁⟩ := rp
      simp only [hr, ok_bind] at h
      cases hc2 : applyV cond rv s₁ with
      | error e => simp only [hc2, error_bind] at h; exact absurd h (by simp)
      | ok cp =>
        obtain ⟨cv, s₂⟩ := cp
        simp only [hc2, ok_bind] at h
        have hidx1 := hroll s (rv, s₁) hr
        have hidx2 := hcond rv s₁ (cv, s₂) hc2
        simp only at hidx1 hidx2
        cases cv with
        | num c =>
          simp only at h
          split at h <;>
            (simp only [Except.ok.injEq, Prod.mk.injEq] at h
             obtain ⟨-, rfl⟩ := h
             omega)
        | null => simp at h
        | str a => simp at h
        | arr a => simp at h
        | closure a b c => simp at h
        | builtin a b => simp at h
  | succ k ih =>
    rw [rerollLoop] at h
    cases hr : applyV roll .null s with
    | error e => simp only [hr, error_bind] at h; exact absurd h (by simp)
    | ok rp =>
      obtain ⟨rv, s₁⟩ := rp
      simp only [hr, ok_bind] at h
      cases hc2 : applyV cond rv s₁ with
      | error e => simp only [hc2, error_bind] at h; exact absurd h (by simp)
      | ok cp =>
        obtain ⟨cv, s₂⟩ := cp
        simp only [hc2, ok_bind] at h
        have hidx1 := hroll s (rv, s₁) hr
        have hidx2 := hcond rv s₁ (cv, s₂) hc2
        simp only at hidx1 hidx2
        cases cv with
        | num c =>
          simp only at h
          split at h
          · simp only [Except.ok.injEq, Prod.mk.injEq] at h
            obtain ⟨-, rfl⟩ := h
            omega
          · have := ih s₂ h
            omega
        | null => simp at h
        | str a => simp at h
        | arr a => simp at h
        | closure a b c => simp at h
        | builtin a b => simp at h

/-- Witness for the C8 bound at the concrete `dF`/`(= 1)` run: 101 roll
attempts is within `MAX_REROLLS + 1`. -/
theorem reroll_at_most_101_witness :
    (⟨[⟨rootVars, none⟩], 101⟩ : St).idx ≤ initSt.idx + (MAX_REROLLS + 1) := by
  apply reroll_at_most_101 (fun v a t => applyValue oracle0 (4 + 1) v a t)
    (.builtin .dF []) (.builtin .eqB [.num 1]) ?_ ?_ MAX_REROLLS initSt (.num (-1))
  · exact rerollLoop_dF_falsy 4 MAX_REROLLS initSt
  · intro t r h
    simp only [applyValue_dF 4, Except.ok.injEq] at h
    rw [← h]
  · intro x t r h
    simp only [applyValue_eqB_state 4, Except.ok.injEq] at h
    rw [← h]

/-- C9: after `(`, when no inner expression can be parsed, the parser
consumes the next token without checking that it is `)`: the source `(]`
parses successfully to the unit literal (just like `()`), instead of
raising a syntax error. -/
theorem paren_unit_lenient :
    parse 8 [.parenL, .bracketR, .eof] = .ok .unit
    ∧ parse 8 [.parenL, .parenR, .eof] = .ok .unit := ⟨rfl, rfl⟩

/-- C10: `highest` slices the ascending-sorted copy from index
`length − n` without clamping `n`, and `lowest` symmetrically: for every
integer `n` with `L < n < 2·L`, both return exactly `n − L` elements.
The builtins dispatch to `keepHighest`/`keepLowest` on their guarded
arguments. -/
theorem highest_lowest_unclamped (items : List ℚ) (n : ℤ)
    (h1 : (items.length : ℤ) < n) (h2 : n < 2 * items.length) :
    (keepHighest items ((n : ℤ) : ℚ)).length = (n - items.length).toNat
    ∧ (keepLowest items ((n : ℤ) : ℚ)).length = (n - items.length).toNat
    ∧ (∀ (oracle : ℕ → ℚ) (applyV : Value → Value → St → Res) (nv : ℚ)
        (elements : List Value) (s : St),
      runBuiltin oracle applyV .highest [.num nv, .arr elements] s
        = .ok (.arr ((keepHighest (toQList elements) nv).map Value.num), s)
      ∧ runBuiltin oracle applyV .lowest [.num nv, .arr elements] s
        = .ok (.arr ((keepLowest (toQList elements) nv).map Value.num), s)) := by
  have hstart : qtrunc ((items.length : ℚ) - ((n : ℤ) : ℚ)) = (items.length : ℤ) - n := by
    rw [show ((items.length : ℚ) - ((n : ℤ) : ℚ)) = (((items.length : ℤ) - n : ℤ) : ℚ) by
      push_cast; ring, qtrunc_intCast]
  refine ⟨?_, ?_, fun _ _ _ _ _ => ⟨rfl, rfl⟩⟩
  · rw [keepHighest, hstart, jsSliceFrom, if_pos (by omega), List.length_drop,
      sortAsc_length,
      max_eq_left (show (0 : ℤ) ≤ (items.length : ℤ) + ((items.length : ℤ) - n) by omega)]
    omega
  · rw [keepLowest, hstart, jsSliceFrom, if_pos (by omega), List.length_drop,
      sortDesc_length,
      max_eq_left (show (0 : ℤ) ≤ (items.length : ℤ) + ((items.length : ℤ) - n) by omega)]
    omega

/-- Witness for C10: `highest 6` of a 5-element array keeps one element
(not the whole array), and `lowest 6` likewise. -/
theorem highest_lowest_unclamped_witness :
    (5 : ℤ) < 6 ∧ (6 : ℤ) < 2 * 5
    ∧ (keepHighest [1, 2, 3, 4, 5] ((6 : ℤ) : ℚ)).length = 1
    ∧ (keepLowest [1, 2, 3, 4, 5] ((6 : ℤ) : ℚ)).length = 1 := by
  have h := highest_lowest_unclamped [1, 2, 3, 4, 5] 6 (by norm_num) (by norm_num)
  exact ⟨by norm_num, by norm_num, by simpa using h.1, by simpa using h.2.1⟩

end Eurydice
